import Mathlib

/-!
Verification of the post-processing pipeline in
src/QuantumRandomWalks/post_processing.py (class ResultsDataframe).

The DataFrame is modelled column-major: a list of columns, each a name with
its cell values. Floats are modelled as exact rationals; the NaN a pandas
aggregation produces on an empty column is modelled by the marker string
"NaN". The Python string primitives the code relies on (str.split with no
argument, int(s, 2), f-string binary padding, str of an int) are embedded
explicitly below.
-/

/-- A cell value: a number (floats taken as exact rationals) or a string
(the sentinel labels "P-max"/"P-avg"; "NaN" marks an empty aggregation). -/
inductive Val where
  | num (q : ℚ)
  | str (s : String)
deriving DecidableEq

/-- A pandas DataFrame, column-major: the ordered columns, each a name
paired with its cells (one per row, top to bottom). -/
abbrev Table := List (String × List Val)

/-- Value of a decimal digit character (callers guard the default case). -/
def chVal (c : Char) : Nat :=
  if c = '1' then 1 else if c = '2' then 2 else if c = '3' then 3
  else if c = '4' then 4 else if c = '5' then 5 else if c = '6' then 6
  else if c = '7' then 7 else if c = '8' then 8 else if c = '9' then 9 else 0

/-- The character of a decimal digit (callers keep d < 10). -/
def digCh (d : Nat) : Char :=
  if d = 0 then '0' else if d = 1 then '1' else if d = 2 then '2'
  else if d = 3 then '3' else if d = 4 then '4' else if d = 5 then '5'
  else if d = 6 then '6' else if d = 7 then '7' else if d = 8 then '8' else '9'

/-- A binary digit character. -/
def isBin (c : Char) : Bool := c == '0' || c == '1'

/-- The code points Python's str.isspace — and hence str.split() with no
argument — treats as whitespace: U+0009..U+000D, U+001C..U+0020, U+0085,
U+00A0, U+1680, U+2000..U+200A, U+2028, U+2029, U+202F, U+205F, U+3000. -/
def pyIsSpace (c : Char) : Bool :=
  let v := c.toNat
  (decide (0x9 ≤ v) && decide (v ≤ 0xd)) ||
  (decide (0x1c ≤ v) && decide (v ≤ 0x20)) ||
  v == 0x85 || v == 0xa0 || v == 0x1680 ||
  (decide (0x2000 ≤ v) && decide (v ≤ 0x200a)) ||
  v == 0x2028 || v == 0x2029 || v == 0x202f || v == 0x205f || v == 0x3000

/-- Base-`base` digits of n, most significant first, prepended to acc;
fuel ≥ n keeps the division recursion structural. -/
def toBaseAux (base : Nat) : Nat → Nat → List Char → List Char
  | 0, _, acc => acc
  | fuel + 1, n, acc =>
    if n = 0 then acc else toBaseAux base fuel (n / base) (digCh (n % base) :: acc)

/-- Python format(n, 'b'): binary digits, at least one. -/
def natToBin (n : Nat) : List Char := if n = 0 then ['0'] else toBaseAux 2 n n []

/-- Python str(n) for a natural number. -/
def natToDec (n : Nat) : List Char := if n = 0 then ['0'] else toBaseAux 10 n n []

/-- Python str(i) for an int. -/
def intToDec : Int → List Char
  | .ofNat m => natToDec m
  | .negSucc m => '-' :: natToDec (m + 1)

/-- Python f-string padding f'{n:0{b}b}': binary digits of n zero-padded on
the left to width b; never truncated, and width 0 still prints one digit. -/
def padBin (b n : Nat) : List Char :=
  List.replicate (b - (natToBin n).length) '0' ++ natToBin n

/-- The column name f'{i:0{b}b} {j:0{b}b}' built by filter_connected_columns. -/
def encodePair (b i j : Nat) : String := ⟨padBin b i ++ ' ' :: padBin b j⟩

/-- Reading a digit list back, most significant digit first. -/
def valAux (base : Nat) (v : Nat) (l : List Char) : Nat :=
  l.foldl (fun a ch => base * a + chVal ch) v

/-- Python str.split() with no argument: split on runs of whitespace, no
empty tokens; acc holds the reversed token being read. -/
def splitWs : List Char → List Char → List (List Char)
  | [], acc => if acc.isEmpty then [] else [acc.reverse]
  | c :: cs, acc =>
    if pyIsSpace c then
      if acc.isEmpty then splitWs cs [] else acc.reverse :: splitWs cs []
    else splitWs cs (c :: acc)

/-- col.split() on a string. -/
def pySplit (s : String) : List String := (splitWs s.data []).map fun l => ⟨l⟩

/-- After Python's 0b/0B prefix a single underscore may precede the digits. -/
def dropU : List Char → List Char
  | [] => []
  | c :: r => if c = '_' then r else c :: r

/-- Strip an optional 0b/0B prefix (with its optional underscore). -/
def stripPrefixB : List Char → List Char
  | c0 :: c1 :: r =>
    if c0 = '0' ∧ (c1 = 'b' ∨ c1 = 'B') then dropU r else c0 :: c1 :: r
  | l => l

/-- Binary digits with single underscores allowed between digits (Python's
int-literal digit grammar), accumulating the value msb-first. -/
def binAux : Nat → List Char → Option Nat
  | acc, [] => some acc
  | acc, c :: r =>
    if isBin c then binAux (2 * acc + chVal c) r
    else if c = '_' then
      match r with
      | [] => none
      | c2 :: r2 => if isBin c2 then binAux (2 * acc + chVal c2) r2 else none
    else none

/-- A nonempty run of binary digits (underscore separators allowed). -/
def parseBinDigits : List Char → Option Nat
  | [] => none
  | c :: r => if isBin c then binAux (chVal c) r else none

/-- The ASCII part of int(s, 2) once the string is transformed: optional
sign, optional 0b/0B prefix, then binary digits with underscore
separators. -/
def pyIntCore : List Char → Option Int
  | [] => none
  | c :: r =>
    if c = '+' then (parseBinDigits (stripPrefixB r)).map fun v => (v : Int)
    else if c = '-' then (parseBinDigits (stripPrefixB r)).map fun v => -(v : Int)
    else (parseBinDigits (stripPrefixB (c :: r))).map fun v => (v : Int)

/-- Zero points of the Unicode decimal-digit (category Nd) ranges: each
starts a run of ten code points carrying the digit values 0..9. -/
def ndZeros : List Nat :=
  [0x30, 0x660, 0x6f0, 0x7c0, 0x966, 0x9e6, 0xa66, 0xae6, 0xb66, 0xbe6,
   0xc66, 0xce6, 0xd66, 0xde6, 0xe50, 0xed0, 0xf20, 0x1040, 0x1090, 0x17e0,
   0x1810, 0x1946, 0x19d0, 0x1a80, 0x1a90, 0x1b50, 0x1bb0, 0x1c40, 0x1c50,
   0xa620, 0xa8d0, 0xa900, 0xa9d0, 0xa9f0, 0xaa50, 0xabf0, 0xff10, 0x104a0,
   0x10d30, 0x11066, 0x110f0, 0x11136, 0x111d0, 0x112f0, 0x11450, 0x114d0,
   0x11650, 0x116c0, 0x11730, 0x118e0, 0x11950, 0x11c50, 0x11d50, 0x11da0,
   0x16a60, 0x16ac0, 0x16b50, 0x1d7ce, 0x1d7d8, 0x1d7e2, 0x1d7ec, 0x1d7f6,
   0x1e140, 0x1e2f0, 0x1e950, 0x1fbf0]

/-- The decimal value of a Unicode decimal digit (category Nd). -/
def pyDigitVal (c : Char) : Option Nat :=
  match ndZeros.find? (fun z => decide (z ≤ c.toNat) && decide (c.toNat ≤ z + 9)) with
  | some z => some (c.toNat - z)
  | none => none

/-- CPython's per-character transform of int()'s string argument
(_PyUnicode_TransformDecimalAndSpaceToASCII): code points below 127 are
copied unchanged, non-ASCII whitespace becomes ' ', Unicode decimal
digits become their ASCII digit, and anything else makes the later parse
fail ('?' in CPython — never accepted by the grammar, so none here). -/
def pyTransform (c : Char) : Option Char :=
  if c.toNat < 127 then some c
  else if pyIsSpace c then some ' '
  else
    match pyDigitVal c with
    | some d => some (digCh d)
    | none => none

/-- The transform applied to every character (none when int() raises). -/
def transformAll : List Char → Option (List Char)
  | [] => some []
  | c :: r =>
    match pyTransform c, transformAll r with
    | some c2, some r2 => some (c2 :: r2)
    | _, _ => none

/-- The C-locale whitespace PyLong_FromString strips at either end
(U+0009..U+000D and ' '; an ASCII U+001C survives and kills the parse). -/
def pyCSpace (c : Char) : Bool :=
  let v := c.toNat
  v == 0x20 || (decide (0x9 ≤ v) && decide (v ≤ 0xd))

/-- Strip the C-locale whitespace from both ends. -/
def stripSpaces (l : List Char) : List Char :=
  ((l.dropWhile pyCSpace).reverse.dropWhile pyCSpace).reverse

/-- Python int(s, 2) on the characters: CPython first transforms the
string (Unicode digits to ASCII, non-ASCII whitespace to ' '), strips
C-locale whitespace, and then parses sign, 0b/0B prefix and binary digits
with underscore separators. -/
def pyIntList (l : List Char) : Option Int :=
  match transformAll l with
  | none => none
  | some l2 => pyIntCore (stripSpaces l2)

/-- Python int(s, 2); none models the ValueError. -/
def pyIntBase2 (s : String) : Option Int := pyIntList s.data

/-- The try-block of convert_to_decimal's loop on the split tokens:
part1, part2 = col.split() (exactly two tokens or ValueError), then
f-string "{int(part1, 2)}-{int(part2, 2)}"; none models the exception. -/
def relabelParts : List String → Option String
  | [p1, p2] =>
    match pyIntBase2 p1, pyIntBase2 p2 with
    | some v1, some v2 => some ⟨intToDec v1 ++ '-' :: intToDec v2⟩
    | _, _ => none
  | _ => none

/-- One column name through convert_to_decimal's loop body: 'Time' is kept,
a name splitting into two base-2-parseable tokens becomes "{v1}-{v2}", and
any exception leaves the name unchanged. -/
def relabelName (col : String) : String :=
  if col = "Time" then col else (relabelParts (pySplit col)).getD col

/-- convert_to_decimal: df.rename with the dict the loop builds — every
name mapped, values and column order untouched. -/
def convert_to_decimal (t : Table) : Table :=
  t.map fun c => (relabelName c.1, c.2)

/-- math.ceil(math.log2 n) (0 when n ≤ 1), by clog2 n = 1 + clog2 ⌈n/2⌉. -/
def ceilLog2Aux : Nat → Nat → Nat
  | 0, _ => 0
  | fuel + 1, n => if n ≤ 1 then 0 else ceilLog2Aux fuel ((n + 1) / 2) + 1

/-- num_bits = math.ceil(math.log2 num_nodes). -/
def ceilLog2 (n : Nat) : Nat := ceilLog2Aux n n

def numBits (n : Nat) : Nat := ceilLog2 n

/-- The set real_connections at width b: one name per (i, j), i, j < n,
with A i j ≠ 0. -/
def realConnectionsW (b n : Nat) (A : Nat → Nat → ℚ) : List String :=
  (List.range n).flatMap fun i =>
    (List.range n).filterMap fun j =>
      if A i j ≠ 0 then some (encodePair b i j) else none

/-- The set same_nodes at width b: one name per (i, i), i < n. -/
def sameNodesW (b n : Nat) : List String :=
  (List.range n).flatMap fun i =>
    (List.range n).filterMap fun j =>
      if i = j then some (encodePair b i j) else none

/-- filter_connected_columns at an explicit width: the two successive
columns_to_keep comprehensions, then df[columns_to_keep]. -/
def filterW (b n : Nat) (A : Nat → Nat → ℚ) (t : Table) : Table :=
  (t.filter fun c => !decide (c.1 ∈ realConnectionsW b n A)).filter
    fun c => !decide (c.1 ∈ sameNodesW b n)

/-- filter_connected_columns(A) for an n × n matrix A. -/
def filter_connected_columns (n : Nat) (A : Nat → Nat → ℚ) (t : Table) : Table :=
  filterW (numBits n) n A t

/-- Modelled from the spec: §9's proposed clamp max(1, ceil(log2 n)) of the
encoding width, for comparison with the code's behaviour at n = 1. -/
def filterClampedSpec (n : Nat) (A : Nat → Nat → ℚ) (t : Table) : Table :=
  filterW (max 1 (numBits n)) n A t

/-- Numeric view of a cell. -/
def toNumQ : Val → Option ℚ
  | .num q => some q
  | .str _ => none

/-- The numbers of an all-numeric column (none otherwise). -/
def colNums : List Val → Option (List ℚ)
  | [] => some []
  | v :: vs =>
    match toNumQ v, colNums vs with
    | some q, some qs => some (q :: qs)
    | _, _ => none

/-- pandas Series.max of one column: NaN on an empty or non-numeric column. -/
def colMax (vs : List Val) : Val :=
  match colNums vs with
  | some (q :: qs) => .num (qs.foldl max q)
  | _ => .str "NaN"

/-- pandas Series.mean of one column. -/
def colMean (vs : List Val) : Val :=
  match colNums vs with
  | some (q :: qs) => .num ((q :: qs).sum / (q :: qs).length)
  | _ => .str "NaN"

/-- The maximum of a nonempty list of rationals (0 for the empty list,
which the lemmas below never use). -/
def listMaxQ : List ℚ → ℚ
  | [] => 0
  | q :: qs => qs.foldl max q

/-- df.drop('Time', axis=1): drops every column named Time, KeyError when
there is none. -/
def dropTimeCols (t : Table) : Except String Table :=
  if t.any fun c => c.1 == "Time" then
    .ok (t.filter fun c => c.1 != "Time")
  else .error "KeyError: Time not found in axis"

/-- df.loc[len(df)] = vals: the list is assigned to the columns
positionally; ValueError when the lengths differ. -/
def appendRowPositional (t : Table) (vals : List Val) : Option Table :=
  if vals.length = t.length then
    some (List.zipWith (fun c v => (c.1, c.2 ++ [v])) t vals)
  else none

/-- add_max_and_avg, statement by statement; the second component is the
DataFrame the instance holds when the method returns or raises (the method
reassigns self.df to a copy before anything can raise). -/
def add_max_and_avg_run (t : Table) : Except String Table × Table :=
  let t0 := t
  match dropTimeCols t0 with
  | .error e => (.error e, t0)
  | .ok nt =>
    let pmax := nt.map fun c => colMax c.2
    let pavg := nt.map fun c => colMean c.2
    match appendRowPositional t0 (Val.str "P-max" :: pmax) with
    | none => (.error "ValueError: length mismatch", t0)
    | some t1 =>
      match appendRowPositional t1 (Val.str "P-avg" :: pavg) with
      | none => (.error "ValueError: length mismatch", t1)
      | some t2 => (.ok t2, t2)

/-- The value add_max_and_avg leaves in self.df, as an Except. -/
def add_max_and_avg (t : Table) : Except String Table :=
  (add_max_and_avg_run t).1

/-- postprocess_one_node: add_max_and_avg only. -/
def postprocess_one_node (t : Table) : Except String Table := add_max_and_avg t

/-- postprocess_superposition: filter, then summary rows, then relabel. -/
def postprocess_superposition (n : Nat) (A : Nat → Nat → ℚ) (t : Table) :
    Except String Table :=
  (add_max_and_avg (filter_connected_columns n A t)).map convert_to_decimal

/-! ### Digit and rendering lemmas -/

theorem chVal_digCh {d : Nat} (hd : d < 10) : chVal (digCh d) = d := by
  interval_cases d <;> rfl

theorem digCh_bin {d : Nat} (hd : d < 2) : digCh d = '0' ∨ digCh d = '1' := by
  interval_cases d
  · exact Or.inl rfl
  · exact Or.inr rfl

theorem digCh_not_space {d : Nat} (hd : d < 10) : pyIsSpace (digCh d) = false := by
  interval_cases d <;> rfl

theorem digCh_ne_zero {d : Nat} (h0 : 0 < d) (hd : d < 10) : digCh d ≠ '0' := by
  interval_cases d <;> decide

theorem toBaseAux_chars {base : Nat} (P : Char → Prop)
    (hP : ∀ d, d < base → P (digCh d)) (hb : 0 < base) :
    ∀ fuel n acc, (∀ ch ∈ acc, P ch) → ∀ ch ∈ toBaseAux base fuel n acc, P ch := by
  intro fuel
  induction fuel with
  | zero => intro n acc hacc; exact hacc
  | succ f ih =>
    intro n acc hacc ch hch
    rw [toBaseAux] at hch
    by_cases hn : n = 0
    · rw [if_pos hn] at hch; exact hacc ch hch
    · rw [if_neg hn] at hch
      refine ih (n / base) _ ?_ ch hch
      intro c hc
      rcases List.mem_cons.mp hc with h | h
      · rw [h]; exact hP _ (Nat.mod_lt _ hb)
      · exact hacc c h

theorem toBaseAux_zero (base fuel : Nat) (acc : List Char) :
    toBaseAux base fuel 0 acc = acc := by
  cases fuel with
  | zero => rfl
  | succ f => rw [toBaseAux, if_pos rfl]

theorem toBaseAux_head {base : Nat} (hb : 2 ≤ base) :
    ∀ fuel n acc, 0 < n → n ≤ fuel →
      ∃ d rest, 0 < d ∧ d < base ∧ toBaseAux base fuel n acc = digCh d :: rest := by
  intro fuel
  induction fuel with
  | zero => intro n acc hn hf; omega
  | succ f ih =>
    intro n acc hn hf
    rw [toBaseAux, if_neg (Nat.pos_iff_ne_zero.mp hn)]
    by_cases hq : n / base = 0
    · rw [hq, toBaseAux_zero]
      have hlt : n < base := (Nat.div_eq_zero_iff (by omega)).mp hq
      refine ⟨n % base, acc, ?_, Nat.mod_lt _ (by omega), rfl⟩
      rw [Nat.mod_eq_of_lt hlt]; exact hn
    · have hq1 : 0 < n / base := Nat.pos_iff_ne_zero.mpr hq
      have hle : n / base ≤ f := by
        have := Nat.div_lt_self hn (by omega : 1 < base)
        omega
      exact ih (n / base) _ hq1 hle

theorem valAux_cons (base v : Nat) (c : Char) (l : List Char) :
    valAux base v (c :: l) = valAux base (base * v + chVal c) l := rfl

theorem toBaseAux_val {base : Nat} (hb : 2 ≤ base) (hb10 : base ≤ 10) :
    ∀ fuel n acc, 0 < n → n ≤ fuel →
      valAux base 0 (toBaseAux base fuel n acc) = valAux base n acc := by
  intro fuel
  induction fuel with
  | zero => intro n acc hn hf; omega
  | succ f ih =>
    intro n acc hn hf
    rw [toBaseAux, if_neg (Nat.pos_iff_ne_zero.mp hn)]
    have hmod : chVal (digCh (n % base)) = n % base :=
      chVal_digCh (lt_of_lt_of_le (Nat.mod_lt _ (by omega)) hb10)
    by_cases hq : n / base = 0
    · have hlt : n < base := (Nat.div_eq_zero_iff (by omega)).mp hq
      rw [hq, toBaseAux_zero, valAux_cons, hmod, Nat.mul_zero, Nat.zero_add,
        Nat.mod_eq_of_lt hlt]
    · have hq1 : 0 < n / base := Nat.pos_iff_ne_zero.mpr hq
      have hle : n / base ≤ f := by
        have := Nat.div_lt_self hn (by omega : 1 < base); omega
      rw [ih (n / base) _ hq1 hle, valAux_cons, hmod, Nat.div_add_mod]

theorem natToBin_chars {n : Nat} : ∀ ch ∈ natToBin n, isBin ch = true := by
  intro ch hch
  rw [natToBin] at hch
  by_cases hn : n = 0
  · rw [if_pos hn] at hch; simp at hch; rw [hch]; rfl
  · rw [if_neg hn] at hch
    exact toBaseAux_chars (fun c => isBin c = true)
      (fun d hd => by interval_cases d <;> rfl) (by omega) n n [] (by simp) ch hch

theorem natToBin_ne_nil (n : Nat) : natToBin n ≠ [] := by
  rw [natToBin]
  by_cases hn : n = 0
  · rw [if_pos hn]; simp
  · rw [if_neg hn]
    obtain ⟨d, rest, _, _, he⟩ :=
      toBaseAux_head (le_refl 2) n n [] (Nat.pos_iff_ne_zero.mpr hn) le_rfl
    rw [he]; simp

theorem natToBin_val (n : Nat) : valAux 2 0 (natToBin n) = n := by
  rw [natToBin]
  by_cases hn : n = 0
  · rw [if_pos hn, hn]; rfl
  · rw [if_neg hn,
      toBaseAux_val (le_refl 2) (by omega) n n [] (Nat.pos_iff_ne_zero.mpr hn) le_rfl]
    rfl

theorem valAux_replicate_zero (base k : Nat) (l : List Char) :
    valAux base 0 (List.replicate k '0' ++ l) = valAux base 0 l := by
  induction k with
  | zero => rfl
  | succ m ih =>
    rw [List.replicate_succ, List.cons_append, valAux_cons]
    have h0 : chVal '0' = 0 := rfl
    rw [h0, Nat.mul_zero, Nat.add_zero]
    exact ih

theorem padBin_chars {b n : Nat} : ∀ ch ∈ padBin b n, isBin ch = true := by
  intro ch hch
  rw [padBin] at hch
  rcases List.mem_append.mp hch with h | h
  · rw [List.eq_of_mem_replicate h]; rfl
  · exact natToBin_chars ch h

theorem padBin_ne_nil (b n : Nat) : padBin b n ≠ [] := by
  rw [padBin]
  intro h
  exact natToBin_ne_nil n (List.append_eq_nil.mp h).2

theorem padBin_val (b n : Nat) : valAux 2 0 (padBin b n) = n := by
  rw [padBin, valAux_replicate_zero, natToBin_val]

theorem natToDec_not_space {n : Nat} : ∀ ch ∈ natToDec n, pyIsSpace ch = false := by
  intro ch hch
  rw [natToDec] at hch
  by_cases hn : n = 0
  · rw [if_pos hn] at hch; simp at hch; rw [hch]; rfl
  · rw [if_neg hn] at hch
    exact toBaseAux_chars (fun c => pyIsSpace c = false)
      (fun d hd => digCh_not_space hd) (by omega) n n [] (by simp) ch hch

theorem natToDec_val (n : Nat) : valAux 10 0 (natToDec n) = n := by
  rw [natToDec]
  by_cases hn : n = 0
  · rw [if_pos hn, hn]; rfl
  · rw [if_neg hn,
      toBaseAux_val (by omega) (le_refl 10) n n [] (Nat.pos_iff_ne_zero.mpr hn) le_rfl]
    rfl

theorem natToDec_no_leading_zero {n : Nat} (h : 2 ≤ (natToDec n).length) :
    (natToDec n).head? ≠ some '0' := by
  rw [natToDec] at h ⊢
  by_cases hn : n = 0
  · rw [if_pos hn] at h; simp at h
  · rw [if_neg hn]
    obtain ⟨d, rest, hd0, hd10, he⟩ :=
      toBaseAux_head (by omega : (2:Nat) ≤ 10) n n [] (Nat.pos_iff_ne_zero.mpr hn) le_rfl
    rw [he]
    simp only [List.head?_cons, ne_eq, Option.some.injEq]
    exact digCh_ne_zero hd0 hd10

theorem intToDec_not_space : ∀ (i : Int), ∀ ch ∈ intToDec i, pyIsSpace ch = false := by
  intro i ch hch
  cases i with
  | ofNat m => exact natToDec_not_space ch hch
  | negSucc m =>
    rw [intToDec] at hch
    rcases List.mem_cons.mp hch with h | h
    · rw [h]; rfl
    · exact natToDec_not_space ch h

theorem intToDec_ne_nil (i : Int) : intToDec i ≠ [] := by
  cases i with
  | ofNat m =>
    show natToDec m ≠ []
    rw [natToDec]
    by_cases hm : m = 0
    · rw [if_pos hm]; simp
    · rw [if_neg hm]
      obtain ⟨d, rest, _, _, he⟩ :=
        toBaseAux_head (by omega : (2:Nat) ≤ 10) m m [] (Nat.pos_iff_ne_zero.mpr hm) le_rfl
      rw [he]; simp
  | negSucc m => simp [intToDec]

/-! ### Split and parse lemmas -/

theorem isBin_eq {c : Char} : isBin c = true ↔ (c = '0' ∨ c = '1') := by
  simp [isBin]

theorem isBin_not_space {c : Char} (h : isBin c = true) : pyIsSpace c = false := by
  rcases isBin_eq.mp h with h | h <;> rw [h] <;> rfl

theorem splitWs_nows :
    ∀ (l : List Char), (∀ ch ∈ l, pyIsSpace ch = false) → ∀ acc,
      splitWs l acc =
        if (acc.reverse ++ l).isEmpty then [] else [acc.reverse ++ l] := by
  intro l
  induction l with
  | nil => intro h acc; cases acc <;> simp [splitWs]
  | cons c cs ih =>
    intro h acc
    have hc : pyIsSpace c = false := h c (List.mem_cons_self c cs)
    rw [splitWs, hc, if_neg Bool.false_ne_true,
      ih (fun ch hch => h ch (List.mem_cons_of_mem c hch)) (c :: acc)]
    simp [List.append_assoc]

theorem splitWs_word :
    ∀ (l1 : List Char), (∀ ch ∈ l1, pyIsSpace ch = false) → ∀ (l2 : List Char) acc,
      splitWs (l1 ++ ' ' :: l2) acc =
        (if (acc.reverse ++ l1).isEmpty then [] else [acc.reverse ++ l1]) ++
          splitWs l2 [] := by
  intro l1
  induction l1 with
  | nil =>
    intro h l2 acc
    show splitWs (' ' :: l2) acc = _
    rw [splitWs]
    have : pyIsSpace ' ' = true := rfl
    rw [this, if_pos rfl]
    cases acc <;> simp
  | cons c cs ih =>
    intro h l2 acc
    have hc : pyIsSpace c = false := h c (List.mem_cons_self c cs)
    rw [List.cons_append, splitWs, hc, if_neg Bool.false_ne_true,
      ih (fun ch hch => h ch (List.mem_cons_of_mem c hch)) l2 (c :: acc)]
    simp [List.append_assoc]

theorem splitWs_pair (l1 l2 : List Char)
    (h1 : ∀ ch ∈ l1, pyIsSpace ch = false) (h2 : ∀ ch ∈ l2, pyIsSpace ch = false)
    (n1 : l1 ≠ []) (n2 : l2 ≠ []) :
    splitWs (l1 ++ ' ' :: l2) [] = [l1, l2] := by
  rw [splitWs_word l1 h1 l2 [], splitWs_nows l2 h2 []]
  simp [n1, n2]

theorem pySplit_encodePair (b i j : Nat) :
    pySplit (encodePair b i j) = [⟨padBin b i⟩, ⟨padBin b j⟩] := by
  show (splitWs (padBin b i ++ ' ' :: padBin b j) []).map (fun l => (⟨l⟩ : String)) = _
  rw [splitWs_pair _ _ (fun ch hch => isBin_not_space (padBin_chars ch hch))
    (fun ch hch => isBin_not_space (padBin_chars ch hch))
    (padBin_ne_nil b i) (padBin_ne_nil b j)]
  rfl

theorem binAux_cons (acc : Nat) (c : Char) (r : List Char) :
    binAux acc (c :: r) =
      if isBin c then binAux (2 * acc + chVal c) r
      else if c = '_' then
        match r with
        | [] => none
        | c2 :: r2 => if isBin c2 then binAux (2 * acc + chVal c2) r2 else none
      else none := by
  rw [binAux.eq_def]

theorem binAux_all :
    ∀ (l : List Char), (∀ ch ∈ l, isBin ch = true) → ∀ acc,
      binAux acc l = some (valAux 2 acc l) := by
  intro l
  induction l with
  | nil => intro h acc; rfl
  | cons c r ih =>
    intro h acc
    have hc : isBin c = true := h c (List.mem_cons_self c r)
    rw [binAux_cons, if_pos hc, ih (fun ch hch => h ch (List.mem_cons_of_mem c hch)),
      valAux_cons]

theorem parseBinDigits_all {l : List Char} (h : ∀ ch ∈ l, isBin ch = true)
    (hne : l ≠ []) : parseBinDigits l = some (valAux 2 0 l) := by
  cases l with
  | nil => exact absurd rfl hne
  | cons c r =>
    have hc : isBin c = true := h c (List.mem_cons_self c r)
    rw [parseBinDigits, if_pos hc,
      binAux_all r (fun ch hch => h ch (List.mem_cons_of_mem c hch)), valAux_cons]
    norm_num

theorem isBin_ne {c : Char} (h : isBin c = true) :
    c ≠ '+' ∧ c ≠ '-' ∧ c ≠ 'b' ∧ c ≠ 'B' := by
  rcases isBin_eq.mp h with h | h <;> rw [h] <;> exact ⟨by decide, by decide, by decide, by decide⟩

theorem stripPrefixB_all {l : List Char} (h : ∀ ch ∈ l, isBin ch = true) :
    stripPrefixB l = l := by
  cases l with
  | nil => rfl
  | cons c0 t =>
    cases t with
    | nil => rfl
    | cons c1 r =>
      have h1 : isBin c1 = true := h c1 (by simp)
      rw [stripPrefixB, if_neg]
      rintro ⟨-, hb | hb⟩
      · exact (isBin_ne h1).2.2.1 hb
      · exact (isBin_ne h1).2.2.2 hb

theorem pyIntCore_all {l : List Char} (h : ∀ ch ∈ l, isBin ch = true)
    (hne : l ≠ []) : pyIntCore l = some ((valAux 2 0 l : Nat) : Int) := by
  cases l with
  | nil => exact absurd rfl hne
  | cons c r =>
    have hc : isBin c = true := h c (List.mem_cons_self c r)
    rw [pyIntCore, if_neg (isBin_ne hc).1, if_neg (isBin_ne hc).2.1,
      stripPrefixB_all h, parseBinDigits_all h hne]
    rfl

theorem pyTransform_ascii {c : Char} (h : c.toNat < 127) :
    pyTransform c = some c := by
  rw [pyTransform, if_pos h]

theorem isBin_toNat_lt {c : Char} (h : isBin c = true) : c.toNat < 127 := by
  rcases isBin_eq.mp h with h | h <;> rw [h] <;> decide

theorem transformAll_id {l : List Char}
    (h : ∀ ch ∈ l, pyTransform ch = some ch) : transformAll l = some l := by
  induction l with
  | nil => rfl
  | cons c r ih =>
    rw [transformAll, h c (List.mem_cons_self c r),
      ih fun ch hch => h ch (List.mem_cons_of_mem c hch)]

theorem dropWhile_false {p : Char → Bool} {l : List Char}
    (h : ∀ c ∈ l, p c = false) : l.dropWhile p = l := by
  cases l with
  | nil => rfl
  | cons c r => simp [List.dropWhile_cons, h c (List.mem_cons_self c r)]

theorem stripSpaces_id {l : List Char} (h : ∀ c ∈ l, pyCSpace c = false) :
    stripSpaces l = l := by
  rw [stripSpaces, dropWhile_false h,
    dropWhile_false fun c hc => h c (List.mem_reverse.mp hc), List.reverse_reverse]

theorem isBin_not_cspace {c : Char} (h : isBin c = true) : pyCSpace c = false := by
  rcases isBin_eq.mp h with h | h <;> rw [h] <;> rfl

theorem pyIntList_all {l : List Char} (h : ∀ ch ∈ l, isBin ch = true)
    (hne : l ≠ []) : pyIntList l = some ((valAux 2 0 l : Nat) : Int) := by
  have ht : transformAll l = some l :=
    transformAll_id fun ch hch => pyTransform_ascii (isBin_toNat_lt (h ch hch))
  simp only [pyIntList, ht]
  rw [stripSpaces_id fun c hc => isBin_not_cspace (h c hc)]
  exact pyIntCore_all h hne

theorem pyIntBase2_padBin (b n : Nat) :
    pyIntBase2 ⟨padBin b n⟩ = some ((n : Nat) : Int) := by
  show pyIntList (padBin b n) = _
  rw [pyIntList_all padBin_chars (padBin_ne_nil b n), padBin_val]

/-! ### Relabelling lemmas -/

theorem encodePair_ne_Time (b i j : Nat) : encodePair b i j ≠ "Time" := by
  intro h
  have hd : padBin b i ++ ' ' :: padBin b j = "Time".data := congrArg String.data h
  have hsp : ' ' ∈ "Time".data := by
    rw [← hd]; exact List.mem_append_right _ (List.mem_cons_self _ _)
  revert hsp; decide

theorem intToDec_coe (m : Nat) : intToDec (m : Int) = natToDec m := rfl

theorem relabelParts_pair {p1 p2 : String} {v1 v2 : Int}
    (h1 : pyIntBase2 p1 = some v1) (h2 : pyIntBase2 p2 = some v2) :
    relabelParts [p1, p2] = some ⟨intToDec v1 ++ '-' :: intToDec v2⟩ := by
  simp only [relabelParts]
  rw [h1, h2]

theorem relabelName_encodePair (b a c : Nat) :
    relabelName (encodePair b a c) = ⟨natToDec a ++ '-' :: natToDec c⟩ := by
  rw [relabelName, if_neg (encodePair_ne_Time b a c), pySplit_encodePair,
    relabelParts_pair (pyIntBase2_padBin b a) (pyIntBase2_padBin b c),
    Option.getD_some, intToDec_coe, intToDec_coe]

theorem relabelParts_shape {l : List String} {r : String}
    (h : relabelParts l = some r) :
    ∃ v1 v2 : Int, r = ⟨intToDec v1 ++ '-' :: intToDec v2⟩ := by
  match l with
  | [] => exact absurd h (by simp [relabelParts])
  | [x] => exact absurd h (by simp [relabelParts])
  | x :: y :: z :: w => exact absurd h (by simp [relabelParts])
  | [p1, p2] =>
    cases h1 : pyIntBase2 p1 with
    | none =>
      simp only [relabelParts] at h
      rw [h1] at h
      cases h2 : pyIntBase2 p2 <;> rw [h2] at h <;> exact Option.noConfusion h
    | some v1 =>
      cases h2 : pyIntBase2 p2 with
      | none =>
        simp only [relabelParts] at h
        rw [h1, h2] at h
        exact Option.noConfusion h
      | some v2 =>
        refine ⟨v1, v2, ?_⟩
        rw [relabelParts_pair h1 h2] at h
        exact (Option.some.injEq _ _).mp h.symm

theorem pySplit_single {s : String} (h : ∀ ch ∈ s.data, pyIsSpace ch = false)
    (hne : s.data ≠ []) : pySplit s = [s] := by
  show (splitWs s.data []).map (fun l => (⟨l⟩ : String)) = [s]
  rw [splitWs_nows s.data h []]
  simp [hne]

theorem relabelName_out_fixed (v1 v2 : Int) :
    relabelName ⟨intToDec v1 ++ '-' :: intToDec v2⟩ =
      (⟨intToDec v1 ++ '-' :: intToDec v2⟩ : String) := by
  by_cases hT : (⟨intToDec v1 ++ '-' :: intToDec v2⟩ : String) = "Time"
  · rw [relabelName, if_pos hT]
  · rw [relabelName, if_neg hT, pySplit_single ?h ?hne]
    · rfl
    case h =>
      intro ch hch
      rcases List.mem_append.mp hch with h | h
      · exact intToDec_not_space v1 ch h
      · rcases List.mem_cons.mp h with h | h
        · rw [h]; rfl
        · exact intToDec_not_space v2 ch h
    case hne => simp

theorem relabelName_Time : relabelName "Time" = "Time" := by
  rw [relabelName, if_pos rfl]

theorem relabelName_idem (col : String) :
    relabelName (relabelName col) = relabelName col := by
  by_cases hT : col = "Time"
  · rw [hT, relabelName_Time, relabelName_Time]
  · have hcol : relabelName col = (relabelParts (pySplit col)).getD col := by
      rw [relabelName, if_neg hT]
    cases hp : relabelParts (pySplit col) with
    | none =>
      have h2 : relabelName col = col := by rw [hcol, hp, Option.getD_none]
      rw [h2]; exact h2
    | some r =>
      have h2 : relabelName col = r := by rw [hcol, hp, Option.getD_some]
      rw [h2]
      obtain ⟨v1, v2, hr⟩ := relabelParts_shape hp
      rw [hr]
      exact relabelName_out_fixed v1 v2

/-! ### Exclusion-set and filter lemmas -/

theorem mem_realConnectionsW {b n : Nat} {A : Nat → Nat → ℚ} {s : String} :
    s ∈ realConnectionsW b n A ↔
      ∃ i, i < n ∧ ∃ j, j < n ∧ A i j ≠ 0 ∧ encodePair b i j = s := by
  simp [realConnectionsW, Option.ite_none_right_eq_some]

theorem mem_sameNodesW {b n : Nat} {s : String} :
    s ∈ sameNodesW b n ↔ ∃ i, i < n ∧ encodePair b i i = s := by
  constructor
  · intro h
    simp only [sameNodesW, List.mem_flatMap, List.mem_filterMap, List.mem_range] at h
    obtain ⟨i, hi, j, hj, hij⟩ := h
    by_cases hij' : i = j
    · refine ⟨i, hi, ?_⟩
      subst hij'
      rw [if_pos rfl] at hij
      exact (Option.some.injEq _ _).mp hij
    · rw [if_neg hij'] at hij
      exact Option.noConfusion hij
  · rintro ⟨i, hi, hs⟩
    simp only [sameNodesW, List.mem_flatMap, List.mem_filterMap, List.mem_range]
    exact ⟨i, hi, i, hi, by rw [if_pos rfl, hs]⟩

theorem time_not_mem_realConnectionsW {b n : Nat} {A : Nat → Nat → ℚ} :
    "Time" ∉ realConnectionsW b n A := by
  intro h
  obtain ⟨i, -, j, -, -, he⟩ := mem_realConnectionsW.mp h
  exact encodePair_ne_Time b i j he

theorem time_not_mem_sameNodesW {b n : Nat} : "Time" ∉ sameNodesW b n := by
  intro h
  obtain ⟨i, -, he⟩ := mem_sameNodesW.mp h
  exact encodePair_ne_Time b i i he

theorem mem_filterW {b n : Nat} {A : Nat → Nat → ℚ} {t : Table}
    {c : String × List Val} :
    c ∈ filterW b n A t ↔
      c ∈ t ∧ c.1 ∉ realConnectionsW b n A ∧ c.1 ∉ sameNodesW b n := by
  simp only [filterW, List.mem_filter, Bool.not_eq_true', decide_eq_false_iff_not,
    and_assoc]

theorem filterW_sublist (b n : Nat) (A : Nat → Nat → ℚ) (t : Table) :
    List.Sublist (filterW b n A t) t :=
  (List.filter_sublist _).trans (List.filter_sublist _)

theorem filterW_cons_time (b n : Nat) (A : Nat → Nat → ℚ) (tvs : List Val)
    (rest : Table) :
    filterW b n A (("Time", tvs) :: rest) = ("Time", tvs) :: filterW b n A rest := by
  simp [filterW, List.filter_cons, time_not_mem_realConnectionsW,
    time_not_mem_sameNodesW]

/-! ### Summary-row lemmas -/

theorem colNums_map_num (qs : List ℚ) : colNums (qs.map Val.num) = some qs := by
  induction qs with
  | nil => rfl
  | cons q l ih => simp [colNums, toNumQ, ih]

theorem colMax_map_num {qs : List ℚ} (h : qs ≠ []) :
    colMax (qs.map Val.num) = .num (listMaxQ qs) := by
  cases qs with
  | nil => exact absurd rfl h
  | cons q l =>
    simp only [colMax]
    rw [colNums_map_num]
    rfl

theorem colMean_map_num {qs : List ℚ} (h : qs ≠ []) :
    colMean (qs.map Val.num) = .num (qs.sum / qs.length) := by
  cases qs with
  | nil => exact absurd rfl h
  | cons q l =>
    simp only [colMean]
    rw [colNums_map_num]

theorem self_le_foldl_max : ∀ (l : List ℚ) (q : ℚ), q ≤ l.foldl max q := by
  intro l
  induction l with
  | nil => intro q; exact le_refl q
  | cons x xs ih => intro q; exact le_trans (le_max_left q x) (ih (max q x))

theorem foldl_max_mem : ∀ (l : List ℚ) (q : ℚ), l.foldl max q = q ∨ l.foldl max q ∈ l := by
  intro l
  induction l with
  | nil => intro q; exact Or.inl rfl
  | cons x xs ih =>
    intro q
    rcases ih (max q x) with h | h
    · rcases max_choice q x with hm | hm
      · left; rw [List.foldl_cons, h, hm]
      · right; rw [List.foldl_cons, h, hm]; exact List.mem_cons_self x xs
    · right; exact List.mem_cons_of_mem x h

theorem le_foldl_max : ∀ (l : List ℚ) (q x : ℚ), x ∈ l → x ≤ l.foldl max q := by
  intro l
  induction l with
  | nil => intro q x hx; exact absurd hx (List.not_mem_nil x)
  | cons y ys ih =>
    intro q x hx
    rcases List.mem_cons.mp hx with h | h
    · rw [h, List.foldl_cons]
      exact le_trans (le_max_right q y) (self_le_foldl_max ys (max q y))
    · exact ih (max q y) x h

theorem listMaxQ_mem {qs : List ℚ} (h : qs ≠ []) : listMaxQ qs ∈ qs := by
  cases qs with
  | nil => exact absurd rfl h
  | cons q l =>
    rcases foldl_max_mem l q with hm | hm
    · rw [listMaxQ, hm]; exact List.mem_cons_self q l
    · exact List.mem_cons_of_mem q hm

theorem le_listMaxQ {qs : List ℚ} {x : ℚ} (hx : x ∈ qs) : x ≤ listMaxQ qs := by
  cases qs with
  | nil => exact absurd hx (List.not_mem_nil x)
  | cons q l =>
    rcases List.mem_cons.mp hx with h | h
    · rw [h, listMaxQ]; exact self_le_foldl_max l q
    · rw [listMaxQ]; exact le_foldl_max l q x h

theorem filter_bne_time {rest : Table} (h : "Time" ∉ rest.map Prod.fst) :
    (rest.filter fun c => c.1 != "Time") = rest := by
  apply List.filter_eq_self.mpr
  intro c hc
  have hne : c.1 ≠ "Time" := fun he => h (he ▸ List.mem_map_of_mem Prod.fst hc)
  simp [hne]

theorem zipWith_append_map (rest : Table) (f : (String × List Val) → Val) :
    List.zipWith (fun c v => (c.1, c.2 ++ [v])) rest (rest.map f) =
      rest.map fun c => (c.1, c.2 ++ [f c]) := by
  induction rest with
  | nil => rfl
  | cons c l ih => simp [ih]

theorem zipWith_map_map (rest : Table) (g : (String × List Val) → String × List Val)
    (f : (String × List Val) → Val) :
    List.zipWith (fun c v => (c.1, c.2 ++ [v])) (rest.map g) (rest.map f) =
      rest.map fun c => ((g c).1, (g c).2 ++ [f c]) := by
  induction rest with
  | nil => rfl
  | cons c l ih => simp [ih]

theorem dropTimeCols_cons_time {tvs : List Val} {rest : Table}
    (h : "Time" ∉ rest.map Prod.fst) :
    dropTimeCols (("Time", tvs) :: rest) = Except.ok rest := by
  rw [dropTimeCols, if_pos (by simp)]
  rw [List.filter_cons]
  simp only [bne_self_eq_false, if_false, Bool.false_eq_true, reduceIte]
  rw [filter_bne_time h]

theorem add_run_ok (tvs : List Val) (rest : Table)
    (h : "Time" ∉ rest.map Prod.fst) :
    add_max_and_avg_run (("Time", tvs) :: rest) =
      (Except.ok (("Time", tvs ++ [Val.str "P-max", Val.str "P-avg"]) ::
        rest.map fun c => (c.1, c.2 ++ [colMax c.2, colMean c.2])),
       ("Time", tvs ++ [Val.str "P-max", Val.str "P-avg"]) ::
        rest.map fun c => (c.1, c.2 ++ [colMax c.2, colMean c.2])) := by
  have happ1 : appendRowPositional (("Time", tvs) :: rest)
      (Val.str "P-max" :: rest.map fun c => colMax c.2) =
      some (("Time", tvs ++ [Val.str "P-max"]) ::
        rest.map fun c => (c.1, c.2 ++ [colMax c.2])) := by
    rw [appendRowPositional, if_pos (by simp)]
    rw [List.zipWith_cons_cons, zipWith_append_map]
  have happ2 : appendRowPositional
      ((("Time", tvs ++ [Val.str "P-max"]) ::
        rest.map fun c => (c.1, c.2 ++ [colMax c.2])))
      (Val.str "P-avg" :: rest.map fun c => colMean c.2) =
      some (("Time", tvs ++ [Val.str "P-max", Val.str "P-avg"]) ::
        rest.map fun c => (c.1, c.2 ++ [colMax c.2, colMean c.2])) := by
    rw [appendRowPositional, if_pos (by simp)]
    rw [List.zipWith_cons_cons, zipWith_map_map]
    simp [List.append_assoc]
  simp only [add_max_and_avg_run, dropTimeCols_cons_time h, happ1, happ2]

/-! ### Shared computation helpers for concrete tables -/

theorem dropTimeCols_error {t : Table} (h : "Time" ∉ t.map Prod.fst) :
    dropTimeCols t = Except.error "KeyError: Time not found in axis" := by
  rw [dropTimeCols, if_neg]
  intro hany
  obtain ⟨c, hc, he⟩ := List.any_eq_true.mp hany
  exact h (List.mem_map.mpr ⟨c, hc, beq_iff_eq.mp he⟩)

theorem add_run_time_second (nm : String) (avs tvs : List Val) (h : nm ≠ "Time") :
    add_max_and_avg_run [(nm, avs), ("Time", tvs)] =
      (Except.ok [(nm, avs ++ [Val.str "P-max", Val.str "P-avg"]),
        ("Time", tvs ++ [colMax avs, colMean avs])],
       [(nm, avs ++ [Val.str "P-max", Val.str "P-avg"]),
        ("Time", tvs ++ [colMax avs, colMean avs])]) := by
  have hd : dropTimeCols [(nm, avs), ("Time", tvs)] = Except.ok [(nm, avs)] := by
    rw [dropTimeCols, if_pos (by simp)]
    rw [List.filter_cons, List.filter_cons]
    simp [h]
  have h1 : appendRowPositional [(nm, avs), ("Time", tvs)]
      (Val.str "P-max" :: List.map (fun c => colMax c.2) [(nm, avs)]) =
      some [(nm, avs ++ [Val.str "P-max"]), ("Time", tvs ++ [colMax avs])] := by
    rw [appendRowPositional, if_pos (by simp)]
    rfl
  have h2 : appendRowPositional [(nm, avs ++ [Val.str "P-max"]),
        ("Time", tvs ++ [colMax avs])]
      (Val.str "P-avg" :: List.map (fun c => colMean c.2) [(nm, avs)]) =
      some [(nm, avs ++ [Val.str "P-max", Val.str "P-avg"]),
        ("Time", tvs ++ [colMax avs, colMean avs])] := by
    rw [appendRowPositional, if_pos (by simp)]
    simp [List.append_assoc]
  simp only [add_max_and_avg_run, hd, h1, h2]

/-! ### The claims -/

/-- C1: filter_connected_columns removes exactly the columns whose names
encode, at the bit width derived from the matrix, a pair (i, j) of nodes
with A i j ≠ 0 (a real edge) or with i = j (a self-pair), and no other
column; any column named Time is retained, and the surviving columns keep
their original relative order (the result is a sublist of the input). -/
theorem c1_filter_exact (n : Nat) (A : Nat → Nat → ℚ) (t : Table) :
    (∀ c : String × List Val,
      c ∈ filter_connected_columns n A t ↔
        c ∈ t ∧ ¬∃ i, i < n ∧ ∃ j, j < n ∧ (A i j ≠ 0 ∨ i = j) ∧
          encodePair (numBits n) i j = c.1) ∧
    (∀ vs, ("Time", vs) ∈ t → ("Time", vs) ∈ filter_connected_columns n A t) ∧
    List.Sublist (filter_connected_columns n A t) t := by
  refine ⟨?_, ?_, filterW_sublist _ _ _ _⟩
  · intro c
    rw [filter_connected_columns, mem_filterW, mem_realConnectionsW, mem_sameNodesW]
    constructor
    · rintro ⟨hc, hreal, hsame⟩
      refine ⟨hc, ?_⟩
      rintro ⟨i, hi, j, hj, hor, he⟩
      rcases hor with hA | hij
      · exact hreal ⟨i, hi, j, hj, hA, he⟩
      · subst hij
        exact hsame ⟨i, hi, he⟩
    · rintro ⟨hc, hnot⟩
      refine ⟨hc, ?_, ?_⟩
      · rintro ⟨i, hi, j, hj, hA, he⟩
        exact hnot ⟨i, hi, j, hj, Or.inl hA, he⟩
      · rintro ⟨i, hi, he⟩
        exact hnot ⟨i, hi, i, hi, Or.inr rfl, he⟩
  · intro vs hvs
    rw [filter_connected_columns, mem_filterW]
    exact ⟨hvs, time_not_mem_realConnectionsW, time_not_mem_sameNodesW⟩

/-- C6: without a column named Time, add_max_and_avg raises the KeyError
of df.drop('Time', axis=1) — it never returns a table. -/
theorem c6_missing_time_error (t : Table) (h : "Time" ∉ t.map Prod.fst) :
    add_max_and_avg t = Except.error "KeyError: Time not found in axis" := by
  simp only [add_max_and_avg, add_max_and_avg_run, dropTimeCols_error h]

/-- C6 witness. -/
theorem c6_missing_time_error_w :
    add_max_and_avg [("A", [Val.num 1])] =
      Except.error "KeyError: Time not found in axis" :=
  c6_missing_time_error [("A", [Val.num 1])] (by simp)

/-- C10: the failed call is atomic — add_max_and_avg reassigns self.df to
a value-equal copy before df.drop can raise, so after the KeyError the
instance holds a table value-equal to the one it held before the call. -/
theorem c10_atomic_failure (t : Table) (h : "Time" ∉ t.map Prod.fst) :
    (add_max_and_avg_run t).2 = t := by
  simp only [add_max_and_avg_run, dropTimeCols_error h]

/-- C10 witness. -/
theorem c10_atomic_failure_w :
    (add_max_and_avg_run [("A", [Val.num 1]), ("B", [Val.num 2])]).2 =
      [("A", [Val.num 1]), ("B", [Val.num 2])] :=
  c10_atomic_failure [("A", [Val.num 1]), ("B", [Val.num 2])] (by simp)

/-- C8: convert_to_decimal is idempotent — a relabelled name "v1-v2"
contains no whitespace, so a second pass finds one token, not two, and
leaves it unchanged; names that failed to parse fail identically again. -/
theorem c8_relabel_idempotent (t : Table) :
    convert_to_decimal (convert_to_decimal t) = convert_to_decimal t := by
  have hcomp : ((fun c : String × List Val => (relabelName c.1, c.2)) ∘
      fun c : String × List Val => (relabelName c.1, c.2)) =
      fun c : String × List Val => (relabelName c.1, c.2) := by
    funext c
    simp [Function.comp, relabelName_idem]
  simp only [convert_to_decimal, List.map_map, hcomp]

/-- C9: for a 1 × 1 adjacency matrix the code computes num_bits =
ceil(log2 1) = 0, but Python's zero-width binary padding still prints one
digit, so filtering coincides with the spec's clamped width
max(1, ceil(log2 n)) = 1 and the self-pair column "0 0" is always removed. -/
theorem c9_single_node_width (A : Nat → Nat → ℚ) (t : Table) :
    filter_connected_columns 1 A t = filterClampedSpec 1 A t ∧
    ∀ vs, ("0 0", vs) ∈ t → ("0 0", vs) ∉ filter_connected_columns 1 A t := by
  constructor
  · rw [filter_connected_columns, filterClampedSpec]
    have hreal : realConnectionsW (numBits 1) 1 A = realConnectionsW (max 1 (numBits 1)) 1 A := by
      by_cases hA : A 0 0 = 0 <;>
        simp [realConnectionsW, List.range_succ, List.range_zero, hA]
      rfl
    have hsame : sameNodesW (numBits 1) 1 = sameNodesW (max 1 (numBits 1)) 1 := by
      decide
    rw [filterW, filterW, hreal, hsame]
  · intro vs hvs hmem
    rw [filter_connected_columns] at hmem
    apply (mem_filterW.mp hmem).2.2
    rw [mem_sameNodesW]
    exact ⟨0, Nat.zero_lt_one, rfl⟩

/-- C3 counterexample: with the Time column in second position the row
list ['P-max'] + values is assigned positionally, so the sentinel lands in
the first column and the Time cells of the two appended rows get numbers
(the max and mean of column A), not "P-max"/"P-avg". -/
theorem c3_sentinel_cex :
    add_max_and_avg [("A", [Val.num 0]), ("Time", [Val.num 1])] =
      Except.ok [("A", [Val.num 0, Val.str "P-max", Val.str "P-avg"]),
        ("Time", [Val.num 1, Val.num 0, Val.num 0])] ∧
    (Val.num 0 : Val) ≠ Val.str "P-max" ∧ (Val.num 0 : Val) ≠ Val.str "P-avg" := by
  refine ⟨?_, by simp, by simp⟩
  have hmax : colMax [Val.num (0:ℚ)] = Val.num 0 := by
    simp [colMax, colNums, toNumQ]
  have hmean : colMean [Val.num (0:ℚ)] = Val.num 0 := by
    simp [colMean, colNums, toNumQ]
  rw [add_max_and_avg, add_run_time_second "A" [Val.num 0] [Val.num 1] (by simp),
    hmax, hmean]
  rfl

/-- C3 (amended): when the Time column is the first column and no other
column is named Time, the two rows add_max_and_avg appends hold the
sentinels "P-max" then "P-avg" in their Time cells, in that order. -/
theorem c3_sentinels_amended (tvs : List Val) (rest : Table)
    (h : "Time" ∉ rest.map Prod.fst) :
    ∃ t2, add_max_and_avg (("Time", tvs) :: rest) = Except.ok t2 ∧
      t2.head? = some ("Time", tvs ++ [Val.str "P-max", Val.str "P-avg"]) := by
  refine ⟨("Time", tvs ++ [Val.str "P-max", Val.str "P-avg"]) ::
    rest.map (fun c => (c.1, c.2 ++ [colMax c.2, colMean c.2])), ?_, rfl⟩
  rw [add_max_and_avg, add_run_ok tvs rest h]

/-- C3 witness. -/
theorem c3_sentinels_amended_w :
    ∃ t2, add_max_and_avg (("Time", [Val.num 7]) :: [("B", [Val.num 2])]) =
        Except.ok t2 ∧
      t2.head? = some ("Time", [Val.num 7] ++ [Val.str "P-max", Val.str "P-avg"]) :=
  c3_sentinels_amended [Val.num 7] [("B", [Val.num 2])] (by simp)

/-- C2 counterexample: with the Time column second, the appended max-row
gives the non-Time column A the string "P-max" — not the maximum 3 of A's
values — because the row is assigned positionally. -/
theorem c2_summary_cex :
    add_max_and_avg [("A", [Val.num 3]), ("Time", [Val.num 1])] =
      Except.ok [("A", [Val.num 3, Val.str "P-max", Val.str "P-avg"]),
        ("Time", [Val.num 1, Val.num 3, Val.num 3])] ∧
    colMax [Val.num 3] = Val.num 3 ∧ (Val.str "P-max" : Val) ≠ Val.num 3 := by
  refine ⟨?_, ?_, by simp⟩
  · have hmax : colMax [Val.num (3:ℚ)] = Val.num 3 := by
      simp [colMax, colNums, toNumQ]
    have hmean : colMean [Val.num (3:ℚ)] = Val.num 3 := by
      simp [colMean, colNums, toNumQ]
    rw [add_max_and_avg, add_run_time_second "A" [Val.num 3] [Val.num 1] (by simp),
      hmax, hmean]
    rfl
  · simp [colMax, colNums, toNumQ]

/-- C2 (amended): when the Time column is the first column and no other
column is named Time, add_max_and_avg appends to each remaining column its
column maximum and then its arithmetic mean (computed over the rows
present before the call), leaves every prior cell unchanged, and grows
each column by exactly two cells; on a nonempty numeric column the
appended cells are the greatest value of the column and its sum divided by
its length. -/
theorem c2_summary_amended (tvs : List Val) (rest : Table)
    (h : "Time" ∉ rest.map Prod.fst) :
    add_max_and_avg (("Time", tvs) :: rest) =
      Except.ok (("Time", tvs ++ [Val.str "P-max", Val.str "P-avg"]) ::
        rest.map fun c => (c.1, c.2 ++ [colMax c.2, colMean c.2])) ∧
    ∀ qs : List ℚ, qs ≠ [] →
      colMax (qs.map Val.num) = Val.num (listMaxQ qs) ∧
      listMaxQ qs ∈ qs ∧ (∀ x ∈ qs, x ≤ listMaxQ qs) ∧
      colMean (qs.map Val.num) = Val.num (qs.sum / qs.length) := by
  refine ⟨?_, ?_⟩
  · rw [add_max_and_avg, add_run_ok tvs rest h]
  · intro qs hqs
    exact ⟨colMax_map_num hqs, listMaxQ_mem hqs, fun x hx => le_listMaxQ hx,
      colMean_map_num hqs⟩

/-- C2 witness. -/
theorem c2_summary_amended_w :
    add_max_and_avg (("Time", [Val.num 0]) :: [("A", [Val.num 1, Val.num 2])]) =
      Except.ok (("Time", [Val.num 0] ++ [Val.str "P-max", Val.str "P-avg"]) ::
        [("A", [Val.num 1, Val.num 2])].map fun c =>
          (c.1, c.2 ++ [colMax c.2, colMean c.2])) :=
  (c2_summary_amended [Val.num 0] [("A", [Val.num 1, Val.num 2])] (by simp)).1

theorem relabelParts_eq_none {l : List String}
    (h : ∀ p1 p2, l = [p1, p2] → pyIntBase2 p1 = none ∨ pyIntBase2 p2 = none) :
    relabelParts l = none := by
  match l with
  | [] => rfl
  | [x] => rfl
  | x :: y :: z :: w => rfl
  | [p1, p2] =>
    simp only [relabelParts]
    rcases h p1 p2 rfl with h0 | h0
    · rw [h0]
    · cases h4 : pyIntBase2 p1 <;> rw [h0]

/-- C4 counterexample: the name "0b1 10" splits into two tokens of which
"0b1" holds the non-binary character 'b'; the claim says it is left
unchanged, but Python's int(·, 2) accepts the 0b prefix, so
convert_to_decimal renames the column to "1-2". -/
theorem c4_unparsed_cex :
    convert_to_decimal [("0b1 10", [])] = [("1-2", [])] ∧
    pySplit "0b1 10" = ["0b1", "10"] ∧ 'b' ∈ "0b1".data ∧ isBin 'b' = false ∧
    ("0b1 10" : String) ≠ "Time" ∧ ("1-2" : String) ≠ "0b1 10" := by
  decide

/-- C4 (amended): a non-Time column name that does not split (on Python's
full whitespace set) into exactly two tokens each accepted by Python's
int(·, 2) — which transforms Unicode decimal digits to ASCII and then
takes binary digit strings, optionally with a sign, an 0b/0B prefix, or
underscore separators — is left unchanged, in place, by
convert_to_decimal. -/
theorem c4_unparsed_unchanged (t : Table) (k : Nat) (nm : String) (vs : List Val)
    (h1 : nm ≠ "Time")
    (h2 : ∀ p1 p2, pySplit nm = [p1, p2] →
      pyIntBase2 p1 = none ∨ pyIntBase2 p2 = none)
    (h3 : t[k]? = some (nm, vs)) :
    (convert_to_decimal t)[k]? = some (nm, vs) := by
  have hrel : relabelName nm = nm := by
    rw [relabelName, if_neg h1, relabelParts_eq_none h2, Option.getD_none]
  simp only [convert_to_decimal, List.getElem?_map, h3, Option.map_some']
  simp [hrel]

/-- C4 witness: the name "1-2 3" splits into two tokens but "1-2" is not
a binary literal, so the column passes through unchanged. -/
theorem c4_unparsed_unchanged_w :
    (convert_to_decimal [("1-2 3", [Val.num 1])])[0]? =
      some ("1-2 3", [Val.num 1]) :=
  c4_unparsed_unchanged [("1-2 3", [Val.num 1])] 0 "1-2 3" [Val.num 1]
    (by decide)
    (by
      intro p1 p2 hp
      have hps : pySplit "1-2 3" = ["1-2", "3"] := by decide
      rw [hps] at hp
      have hp1 : p1 = "1-2" := (List.cons.inj hp).1.symm
      rw [hp1]
      left
      decide)
    rfl

/-- C5: a column named as two width-b binary strings encoding a and c is
renamed by convert_to_decimal to the decimal string "a-c" (plain base-10
digits joined by one hyphen, provably the decimal value with no leading
zero); all row values and the column order are unchanged, and any column
named Time keeps its name. -/
theorem c5_relabel_success (b a c k : Nat) (t : Table) (vs : List Val)
    (_hb : 0 < b) (_ha : a < 2 ^ b) (_hc : c < 2 ^ b)
    (hk : t[k]? = some (encodePair b a c, vs)) :
    (convert_to_decimal t)[k]? = some (⟨natToDec a ++ '-' :: natToDec c⟩, vs) ∧
    (convert_to_decimal t).map Prod.snd = t.map Prod.snd ∧
    (∀ (k' : Nat) (vs' : List Val), t[k']? = some ("Time", vs') →
      (convert_to_decimal t)[k']? = some ("Time", vs')) ∧
    valAux 10 0 (natToDec a) = a ∧ valAux 10 0 (natToDec c) = c ∧
    (∀ m : Nat, 2 ≤ (natToDec m).length → (natToDec m).head? ≠ some '0') := by
  refine ⟨?_, ?_, ?_, natToDec_val a, natToDec_val c,
    fun m hm => natToDec_no_leading_zero hm⟩
  · simp only [convert_to_decimal, List.getElem?_map, hk, Option.map_some']
    simp [relabelName_encodePair]
  · simp [convert_to_decimal, List.map_map, Function.comp]
  · intro k' vs' hk'
    simp only [convert_to_decimal, List.getElem?_map, hk', Option.map_some']
    simp [relabelName_Time]

/-- C5 witness: "01 10" (b = 2, a = 1, c = 2) becomes "1-2". -/
theorem c5_relabel_success_w :
    (convert_to_decimal [(encodePair 2 1 2, [Val.num 5])])[0]? =
      some (⟨natToDec 1 ++ '-' :: natToDec 2⟩, [Val.num 5]) :=
  (c5_relabel_success 2 1 2 0 [(encodePair 2 1 2, [Val.num 5])] [Val.num 5]
    (by decide) (by decide) (by decide) rfl).1

theorem except_map_ok (f : Table → Table) (x : Table) :
    Except.map f (Except.ok x : Except String Table) = Except.ok (f x) := rfl

theorem filterW_map (b n : Nat) (A : Nat → Nat → ℚ)
    (f : (String × List Val) → List Val) :
    ∀ l : Table, filterW b n A (l.map fun c => (c.1, f c)) =
      (filterW b n A l).map fun c => (c.1, f c) := by
  intro l
  induction l with
  | nil => rfl
  | cons c t ih =>
    simp only [filterW, List.map_cons, List.filter_cons] at ih ⊢
    by_cases h1 : c.1 ∈ realConnectionsW b n A
    · simp [h1, ih]
    · by_cases h2 : c.1 ∈ sameNodesW b n
      · simp [List.filter_cons, h1, h2, ih]
      · simp [List.filter_cons, h1, h2, ih]

/-- C7 counterexample: with the Time column second, filtering before the
summary differs from filtering after it — the positional row assignment
shifts values through the column that filtering would remove, so the
held Time column ends as ["NaN", "NaN"] one way and ["P-max", "P-avg"]
the other. -/
theorem c7_commute_cex :
    add_max_and_avg (filter_connected_columns 1 (fun _ _ => (0 : ℚ))
        [("0 0", ([] : List Val)), ("Time", [])]) ≠
      Except.map (filter_connected_columns 1 (fun _ _ => (0 : ℚ)))
        (add_max_and_avg [("0 0", ([] : List Val)), ("Time", [])]) := by
  have hsame : sameNodesW (numBits 1) 1 = ["0 0"] := by decide
  have hreal : realConnectionsW (numBits 1) 1 (fun _ _ => (0 : ℚ)) = [] := by
    simp [realConnectionsW, List.range_succ, List.range_zero]
  have hflt : filter_connected_columns 1 (fun _ _ => (0 : ℚ))
      [("0 0", ([] : List Val)), ("Time", [])] = [("Time", ([] : List Val))] := by
    rw [filter_connected_columns, filterW, hreal, hsame]
    simp [List.filter_cons]
  have hlhs : add_max_and_avg [("Time", ([] : List Val))] =
      Except.ok [("Time", [Val.str "P-max", Val.str "P-avg"])] := by
    rw [add_max_and_avg, add_run_ok [] [] (by simp)]
    rfl
  have hrhs : add_max_and_avg [("0 0", ([] : List Val)), ("Time", [])] =
      Except.ok [("0 0", [Val.str "P-max", Val.str "P-avg"]),
        ("Time", [Val.str "NaN", Val.str "NaN"])] := by
    rw [add_max_and_avg, add_run_time_second "0 0" [] [] (by decide)]
    rfl
  rw [hflt, hlhs, hrhs, except_map_ok]
  have hflt2 : filter_connected_columns 1 (fun _ _ => (0 : ℚ))
      [("0 0", [Val.str "P-max", Val.str "P-avg"]),
        ("Time", [Val.str "NaN", Val.str "NaN"])] =
      [("Time", [Val.str "NaN", Val.str "NaN"])] := by
    rw [filter_connected_columns, filterW, hreal, hsame]
    simp [List.filter_cons]
  rw [hflt2]
  simp

/-- C7 (amended): when the Time column is the first column and no other
column is named Time, filtering and the summary rows commute —
filter_connected_columns only reads column names, and with Time first the
positional row assignment stays aligned on the surviving columns. -/
theorem c7_commute_amended (n : Nat) (A : Nat → Nat → ℚ) (tvs : List Val)
    (rest : Table) (h : "Time" ∉ rest.map Prod.fst) :
    add_max_and_avg (filter_connected_columns n A (("Time", tvs) :: rest)) =
      Except.map (filter_connected_columns n A)
        (add_max_and_avg (("Time", tvs) :: rest)) := by
  have hrest : "Time" ∉ (filterW (numBits n) n A rest).map Prod.fst := by
    intro hm
    obtain ⟨c, hc, he⟩ := List.mem_map.mp hm
    exact h (List.mem_map.mpr ⟨c, (filterW_sublist (numBits n) n A rest).mem hc, he⟩)
  rw [filter_connected_columns, filterW_cons_time, add_max_and_avg,
    add_run_ok tvs _ hrest, add_max_and_avg, add_run_ok tvs rest h, except_map_ok,
    filter_connected_columns, filterW_cons_time, filterW_map]

/-- C7 witness. -/
theorem c7_commute_amended_w :
    add_max_and_avg (filter_connected_columns 2 (fun _ _ => (1 : ℚ))
        (("Time", [Val.num 0]) :: [("0 1", [Val.num 1])])) =
      Except.map (filter_connected_columns 2 (fun _ _ => (1 : ℚ)))
        (add_max_and_avg (("Time", [Val.num 0]) :: [("0 1", [Val.num 1])])) :=
  c7_commute_amended 2 (fun _ _ => (1 : ℚ)) [Val.num 0] [("0 1", [Val.num 1])]
    (by simp)
